import Mathlib

/-!
Embedding of the calorie-tracker server core: the request router and the
JSON-file data layer, translated from the source implementation (the
per-date-map variant the design document adopts as canonical).
-/

/-- A JavaScript value as it may appear in a field of a parsed JSON request
body. `undef` stands for an absent property (reading a missing property of a
JS object yields `undefined`); `nan` is IEEE NaN, a value of JS type
`number` distinct from every finite number. Finite JS numbers are modelled
as rationals. -/
inductive JSValue where
  | undef : JSValue
  | jsNull : JSValue
  | jsBool (b : Bool) : JSValue
  | num (q : ℚ) : JSValue
  | nan : JSValue
  | str (s : String) : JSValue
deriving DecidableEq, Repr

/-- The parsed JSON body of a POST `/api/entries` request as the handler
consumes it: only the `name` and `calories` properties are read. -/
structure Payload where
  name : JSValue
  calories : JSValue
deriving DecidableEq, Repr

/-- JS `String.prototype.trim()`: strip whitespace from both ends of the
string (written structurally over the character list so that it computes). -/
def jsStrTrim (s : String) : String :=
  ⟨((s.data.dropWhile Char.isWhitespace).reverse.dropWhile Char.isWhitespace).reverse⟩

/-- `body.name === undefined || body.name === null ||
(typeof body.name === 'string' && body.name.trim() === '')`. -/
def nameInvalid : JSValue → Bool
  | .undef => true
  | .jsNull => true
  | .str s => jsStrTrim s == ""
  | _ => false

/-- `body.calories === undefined || body.calories === null`. -/
def caloriesMissing : JSValue → Bool
  | .undef => true
  | .jsNull => true
  | _ => false

/-- `typeof body.calories !== 'number' || isNaN(body.calories)`: the JS
`number` type covers the finite numbers and NaN, and `isNaN` holds exactly
on NaN among numbers, so the check fails precisely on finite numbers. -/
def caloriesNotNumber : JSValue → Bool
  | .num _ => false
  | _ => true

/-- `body.calories < 0`, reached only on values of type `number`
(`NaN < 0` is false in JS). -/
def caloriesNegative : JSValue → Bool
  | .num q => decide (q < 0)
  | _ => false

/-- `v.trim()`: a method only string values carry; calling it on any other
value raises a TypeError, which the router's top-level catch converts to a
500 response. `none` marks that exceptional path. -/
def jsTrim : JSValue → Option String
  | .str s => some (jsStrTrim s)
  | _ => none

/-- The numeric value of a JS number; consulted only after
`caloriesNotNumber` has ruled every other case out. -/
def numVal : JSValue → ℚ
  | .num q => q
  | _ => 0

/-- One logged food item, exactly the object `handlePostEntry` builds:
`{ id, name, calories, timestamp }`. -/
structure Entry where
  id : String
  name : String
  calories : ℚ
  timestamp : String
deriving DecidableEq, Repr

/-- The persisted `data.entries` object: date keys in insertion order, each
mapped to its ordered sequence of entries. A JS object cannot repeat a key;
lookups read the first occurrence. -/
abbrev Collection := List (String × List Entry)

/-- The date component (YYYY-MM-DD) of an ISO-8601 timestamp:
`s.slice(0, 10)`. -/
def dateOf (ts : String) : String := ts.take 10

/-- `getToday()`: `new Date().toISOString().slice(0, 10)`; the clock is
passed in as the ISO string `now` of the current instant. -/
def getToday (now : String) : String := dateOf now

/-- `query.get('date') || getToday()`: JS `||` falls through both when the
parameter is absent (`null`) and when it is the empty string (falsy). -/
def dateOrToday (param : Option String) (today : String) : String :=
  match param with
  | none => today
  | some s => if s = "" then today else s

/-- `data.entries[date] || []`: the sequence stored at the key, or the empty
sequence when the key is absent. -/
def listForDate : Collection → String → List Entry
  | [], _ => []
  | p :: rest, d => if p.1 = d then p.2 else listForDate rest d

/-- `entries.reduce((sum, e) => sum + e.calories, 0)` over
`listForDate`. -/
def totalForDate (c : Collection) (d : String) : ℚ :=
  (listForDate c d).foldl (fun s e => s + e.calories) 0

/-- `delete data.entries[date]`: the key and its whole sequence are removed;
nothing happens when the key is absent. -/
def clearDate : Collection → String → Collection
  | [], _ => []
  | p :: rest, d => if p.1 = d then clearDate rest d else p :: clearDate rest d

/-- Whether `data.entries[today]` is present (a stored array is always
truthy in JS, even when empty). -/
def hasDate : Collection → String → Bool
  | [], _ => false
  | p :: rest, d => if p.1 = d then true else hasDate rest d

/-- `data.entries[today].push(entry)`: append to the sequence at the key. -/
def appendAt : Collection → String → Entry → Collection
  | [], _, _ => []
  | p :: rest, d, e =>
    if p.1 = d then (p.1, p.2 ++ [e]) :: rest else p :: appendAt rest d e

/-- Lines 131–135 of the handler: create the key with an empty array when it
is absent (a fresh JS object key goes last in insertion order), then push
the entry. -/
def pushEntry (c : Collection) (d : String) (e : Entry) : Collection :=
  if hasDate c d then appendAt c d e else c ++ [(d, [e])]

/-- `findIndex(e => e.id === entryId)` followed by `splice(idx, 1)`: remove
the first entry with the given id; `none` when no entry matches. -/
def removeFirstById (entryId : String) : List Entry → Option (List Entry)
  | [] => none
  | e :: es =>
    if e.id = entryId then some es
    else (removeFirstById entryId es).map (fun es' => e :: es')

/-- The loop of `handleDeleteEntryById`: walk the date keys in order; in the
first sequence holding a matching entry, remove that first match, drop the
key when its sequence becomes empty, and stop. Returns the found flag and
the resulting collection. -/
def deleteById (entryId : String) : Collection → Bool × Collection
  | [] => (false, [])
  | (d, es) :: rest =>
    match removeFirstById entryId es with
    | some es' => (true, if es' = [] then rest else (d, es') :: rest)
    | none =>
      let r := deleteById entryId rest
      (r.1, (d, es) :: r.2)

/-- The body of an HTTP response, by shape. -/
inductive Body where
  | entries (es : List Entry)
  | total (t : ℚ)
  | entry (e : Entry)
  | err (msg : String)
  | noBody
deriving DecidableEq, Repr

/-- An HTTP response: status code and body. -/
structure Response where
  status : Nat
  body : Body
deriving DecidableEq, Repr

/-- `handleGetEntries`: default the date, read, respond 200 with the
sequence at the date. -/
def handleGetEntries (param : Option String) (today : String) (c : Collection) : Response :=
  ⟨200, .entries (listForDate c (dateOrToday param today))⟩

/-- `handleGetTotal`: default the date, read, respond 200 with the summed
calories. -/
def handleGetTotal (param : Option String) (today : String) (c : Collection) : Response :=
  ⟨200, .total (totalForDate c (dateOrToday param today))⟩

/-- `handlePostEntry`: `parsed` is the outcome of `parseBody` (`none` when
the body is not valid JSON), `now` the ISO string of the current instant,
`newId` the freshly generated UUID. Returns the response together with the
collection handed to `writeData`, `none` when nothing is written. -/
def handlePostEntry (parsed : Option Payload) (now newId : String) (c : Collection) :
    Response × Option Collection :=
  match parsed with
  | none => (⟨400, .err "Invalid JSON"⟩, none)
  | some body =>
    if nameInvalid body.name then (⟨400, .err "Name is required"⟩, none)
    else if caloriesMissing body.calories then (⟨400, .err "Calories is required"⟩, none)
    else if caloriesNotNumber body.calories then (⟨400, .err "Calories must be a number"⟩, none)
    else if caloriesNegative body.calories then (⟨400, .err "Calories cannot be negative"⟩, none)
    else
      match jsTrim body.name with
      | none => (⟨500, .err "Internal server error"⟩, none)
      | some nm =>
        let e : Entry := ⟨newId, nm, numVal body.calories, now⟩
        (⟨201, .entry e⟩, some (pushEntry c (getToday now) e))

/-- `handleDeleteEntryById`: delete across all dates; found means persist
and 204 with no body, otherwise 404 with an error body and no write. -/
def handleDeleteEntryById (entryId : String) (c : Collection) :
    Response × Option Collection :=
  let r := deleteById entryId c
  if r.1 then (⟨204, .noBody⟩, some r.2)
  else (⟨404, .err "Entry not found"⟩, none)

/-- `handleClearDay`: default the date, drop its key, always persist and
respond 204 with no body. -/
def handleClearDay (param : Option String) (today : String) (c : Collection) :
    Response × Option Collection :=
  (⟨204, .noBody⟩, some (clearDate c (dateOrToday param today)))

/-- The state of the data file as `readData` can observe it: absent,
present but not valid JSON, or holding a stored collection. -/
inductive DataFile where
  | missing : DataFile
  | corrupt : DataFile
  | stored (c : Collection) : DataFile
deriving DecidableEq, Repr

/-- `readData`: read and parse the file; on any failure (missing file or
parse error, both landing in the same catch) fall back to
`{ entries: {} }`, writing it to disk before returning. Returns the loaded
collection and what was written (`none` when nothing was). -/
def readData : DataFile → Collection × Option Collection
  | .missing => ([], some [])
  | .corrupt => ([], some [])
  | .stored c => (c, none)

/-- The collection invariant: every entry stored under a date key carries a
timestamp whose date component equals that key. -/
def DateInv (c : Collection) : Prop :=
  ∀ p ∈ c, ∀ e ∈ p.2, dateOf e.timestamp = p.1

/-- A small concrete collection used to exercise the definitions. -/
def entryA : Entry := ⟨"id-a", "Apple", 95, "2024-01-02T10:00:00.000Z"⟩

/-- A second concrete entry sharing `entryA`'s date. -/
def entryB : Entry := ⟨"id-b", "Bread", 210, "2024-01-02T11:30:00.000Z"⟩

/-- A concrete entry on a later date. -/
def entryC : Entry := ⟨"id-c", "Carrot", 41, "2024-01-05T09:00:00.000Z"⟩

/-- A concrete two-date collection. -/
def democ : Collection := [("2024-01-02", [entryA, entryB]), ("2024-01-05", [entryC])]

theorem listForDate_clearDate_self (c : Collection) (d : String) :
    listForDate (clearDate c d) d = [] := by
  induction c with
  | nil => rfl
  | cons p rest ih =>
    by_cases h : p.1 = d
    · simpa [clearDate, h] using ih
    · simpa [clearDate, listForDate, h] using ih

theorem listForDate_clearDate_other (c : Collection) (d d' : String) (h : d' ≠ d) :
    listForDate (clearDate c d) d' = listForDate c d' := by
  induction c with
  | nil => rfl
  | cons p rest ih =>
    by_cases hp : p.1 = d
    · have hpd' : p.1 ≠ d' := by rw [hp]; exact Ne.symm h
      simp only [clearDate, if_pos hp, listForDate, if_neg hpd']
      exact ih
    · simp only [clearDate, if_neg hp, listForDate]
      by_cases hp' : p.1 = d'
      · simp [hp']
      · simp [hp', ih]

theorem foldl_calories (l : List Entry) (a : ℚ) :
    l.foldl (fun s e => s + e.calories) a = a + (l.map Entry.calories).sum := by
  induction l generalizing a with
  | nil => simp
  | cons e es ih => simp [List.foldl, ih, add_assoc]

theorem removeFirstById_eq_none_iff (entryId : String) (es : List Entry) :
    removeFirstById entryId es = none ↔ ∀ e ∈ es, e.id ≠ entryId := by
  induction es with
  | nil => simp [removeFirstById]
  | cons e rest ih =>
    by_cases h : e.id = entryId
    · simp [removeFirstById, h]
    · simp [removeFirstById, h, Option.map_eq_none', ih]

theorem removeFirstById_first (entryId : String) (epre esuf : List Entry) (e : Entry)
    (hpre : ∀ x ∈ epre, x.id ≠ entryId) (he : e.id = entryId) :
    removeFirstById entryId (epre ++ e :: esuf) = some (epre ++ esuf) := by
  induction epre with
  | nil => simp [removeFirstById, he]
  | cons x xs ih =>
    have hx : x.id ≠ entryId := hpre x (by simp)
    have := ih (fun y hy => hpre y (by simp [hy]))
    simp [removeFirstById, hx, this]

theorem removeFirstById_subset (entryId : String) (es es' : List Entry)
    (h : removeFirstById entryId es = some es') : ∀ x ∈ es', x ∈ es := by
  induction es generalizing es' with
  | nil => simp [removeFirstById] at h
  | cons e rest ih =>
    by_cases he : e.id = entryId
    · simp only [removeFirstById, if_pos he, Option.some.injEq] at h
      subst h
      exact fun x hx => List.mem_cons_of_mem _ hx
    · simp only [removeFirstById, if_neg he, Option.map_eq_some'] at h
      obtain ⟨es'', hes'', rfl⟩ := h
      intro x hx
      rcases List.mem_cons.1 hx with hx | hx
      · exact hx ▸ List.mem_cons_self _ _
      · exact List.mem_cons_of_mem _ (ih es'' hes'' x hx)

theorem removeFirstById_some_of_mem (entryId : String) (es : List Entry)
    (h : ∃ e ∈ es, e.id = entryId) : ∃ es', removeFirstById entryId es = some es' := by
  cases hr : removeFirstById entryId es with
  | none =>
    obtain ⟨e, he, hid⟩ := h
    exact absurd hid ((removeFirstById_eq_none_iff entryId es).1 hr e he)
  | some es' => exact ⟨es', rfl⟩

theorem deleteById_fst_iff (entryId : String) (c : Collection) :
    (deleteById entryId c).1 = true ↔ ∃ p ∈ c, ∃ e ∈ p.2, e.id = entryId := by
  induction c with
  | nil => simp [deleteById]
  | cons p rest ih =>
    obtain ⟨d, es⟩ := p
    cases hr : removeFirstById entryId es with
    | some es' =>
      have hne : ∃ e ∈ es, e.id = entryId := by
        by_contra hall
        push_neg at hall
        rw [(removeFirstById_eq_none_iff entryId es).2 hall] at hr
        exact Option.noConfusion hr
      constructor
      · intro _
        exact ⟨(d, es), List.mem_cons_self _ _, hne⟩
      · intro _
        simp [deleteById, hr]
    | none =>
      have hall := (removeFirstById_eq_none_iff entryId es).1 hr
      have hfst : (deleteById entryId ((d, es) :: rest)).1 = (deleteById entryId rest).1 := by
        simp [deleteById, hr]
      rw [hfst, ih]
      constructor
      · rintro ⟨p, hp, hex⟩
        exact ⟨p, List.mem_cons_of_mem _ hp, hex⟩
      · rintro ⟨p, hp, e, he, hid⟩
        rcases List.mem_cons.1 hp with rfl | hp
        · exact absurd hid (hall e he)
        · exact ⟨p, hp, e, he, hid⟩

theorem deleteById_no_match (entryId : String) (c : Collection)
    (h : ∀ p ∈ c, ∀ e ∈ p.2, e.id ≠ entryId) : deleteById entryId c = (false, c) := by
  induction c with
  | nil => rfl
  | cons p rest ih =>
    obtain ⟨d, es⟩ := p
    have hr : removeFirstById entryId es = none :=
      (removeFirstById_eq_none_iff entryId es).2 (h (d, es) (List.mem_cons_self _ _))
    have := ih (fun q hq => h q (List.mem_cons_of_mem _ hq))
    simp [deleteById, hr, this]

theorem deleteById_found (entryId : String) (pre suf : Collection) (d : String)
    (es es' : List Entry)
    (hpre : ∀ p ∈ pre, ∀ x ∈ p.2, x.id ≠ entryId)
    (hrf : removeFirstById entryId es = some es') :
    deleteById entryId (pre ++ (d, es) :: suf) =
      (true, pre ++ if es' = [] then suf else (d, es') :: suf) := by
  induction pre with
  | nil =>
    simp only [List.nil_append, deleteById, hrf]
  | cons p ps ih =>
    obtain ⟨d0, es0⟩ := p
    have h0 : removeFirstById entryId es0 = none :=
      (removeFirstById_eq_none_iff entryId es0).2 (hpre (d0, es0) (List.mem_cons_self _ _))
    have := ih (fun q hq => hpre q (List.mem_cons_of_mem _ hq))
    simp [deleteById, h0, this]

theorem listForDate_of_hasDate_false (c : Collection) (d : String)
    (h : hasDate c d = false) : listForDate c d = [] := by
  induction c with
  | nil => rfl
  | cons p rest ih =>
    by_cases hp : p.1 = d
    · simp [hasDate, hp] at h
    · have : hasDate rest d = false := by simpa [hasDate, hp] using h
      simp [listForDate, hp, ih this]

theorem listForDate_appendAt_self (c : Collection) (d : String) (e : Entry)
    (h : hasDate c d = true) :
    listForDate (appendAt c d e) d = listForDate c d ++ [e] := by
  induction c with
  | nil => simp [hasDate] at h
  | cons p rest ih =>
    by_cases hp : p.1 = d
    · simp [appendAt, listForDate, hp]
    · have : hasDate rest d = true := by simpa [hasDate, hp] using h
      simp [appendAt, listForDate, hp, ih this]

theorem listForDate_appendAt_other (c : Collection) (d d' : String) (e : Entry)
    (h : d' ≠ d) : listForDate (appendAt c d e) d' = listForDate c d' := by
  induction c with
  | nil => rfl
  | cons p rest ih =>
    by_cases hp : p.1 = d
    · have hpd' : p.1 ≠ d' := by rw [hp]; exact Ne.symm h
      simp [appendAt, listForDate, hp, hpd', Ne.symm h]
    · by_cases hp' : p.1 = d'
      · simp [appendAt, listForDate, hp, hp', h]
      · simp [appendAt, listForDate, hp, hp', ih]

theorem listForDate_append_new (c : Collection) (d : String) (e : Entry)
    (h : hasDate c d = false) :
    listForDate (c ++ [(d, [e])]) d = [e] := by
  induction c with
  | nil => simp [listForDate]
  | cons p rest ih =>
    by_cases hp : p.1 = d
    · simp [hasDate, hp] at h
    · have : hasDate rest d = false := by simpa [hasDate, hp] using h
      simp [listForDate, hp, ih this]

theorem listForDate_append_other (c : Collection) (d d' : String) (e : Entry)
    (h : d' ≠ d) : listForDate (c ++ [(d, [e])]) d' = listForDate c d' := by
  induction c with
  | nil => simp [listForDate, Ne.symm h]
  | cons p rest ih =>
    by_cases hp' : p.1 = d'
    · simp [listForDate, hp']
    · simp [listForDate, hp', ih]

theorem listForDate_pushEntry_self (c : Collection) (d : String) (e : Entry) :
    listForDate (pushEntry c d e) d = listForDate c d ++ [e] := by
  unfold pushEntry
  cases h : hasDate c d with
  | true => simp [listForDate_appendAt_self c d e h]
  | false =>
    simp [listForDate_append_new c d e h, listForDate_of_hasDate_false c d h]

theorem listForDate_pushEntry_other (c : Collection) (d d' : String) (e : Entry)
    (h : d' ≠ d) : listForDate (pushEntry c d e) d' = listForDate c d' := by
  unfold pushEntry
  cases hc : hasDate c d with
  | true => simp [listForDate_appendAt_other c d d' e h]
  | false => simp [listForDate_append_other c d d' e h]

theorem mem_clearDate (c : Collection) (d : String) (p : String × List Entry)
    (h : p ∈ clearDate c d) : p ∈ c := by
  induction c with
  | nil => exact absurd h (List.not_mem_nil p)
  | cons q rest ih =>
    by_cases hq : q.1 = d
    · simp only [clearDate, if_pos hq] at h
      exact List.mem_cons_of_mem _ (ih h)
    · simp only [clearDate, if_neg hq] at h
      rcases List.mem_cons.1 h with rfl | h
      · exact List.mem_cons_self _ _
      · exact List.mem_cons_of_mem _ (ih h)

theorem dateInv_clearDate (c : Collection) (d : String) (h : DateInv c) :
    DateInv (clearDate c d) :=
  fun p hp => h p (mem_clearDate c d p hp)

theorem dateInv_deleteById (c : Collection) (entryId : String) (h : DateInv c) :
    DateInv (deleteById entryId c).2 := by
  induction c with
  | nil => exact h
  | cons p rest ih =>
    obtain ⟨d, es⟩ := p
    have hrest : DateInv rest := fun q hq => h q (List.mem_cons_of_mem _ hq)
    cases hr : removeFirstById entryId es with
    | some es' =>
      have hsub := removeFirstById_subset entryId es es' hr
      have hd : ∀ x ∈ es', dateOf x.timestamp = d :=
        fun x hx => h (d, es) (List.mem_cons_self _ _) x (hsub x hx)
      simp only [deleteById, hr]
      split
      · exact hrest
      · intro q hq
        rcases List.mem_cons.1 hq with rfl | hq
        · exact hd
        · exact hrest q hq
    | none =>
      simp only [deleteById, hr]
      intro q hq
      rcases List.mem_cons.1 hq with rfl | hq
      · exact h (d, es) (List.mem_cons_self _ _)
      · exact ih hrest q hq

theorem dateInv_appendAt (c : Collection) (d : String) (e : Entry)
    (h : DateInv c) (he : dateOf e.timestamp = d) : DateInv (appendAt c d e) := by
  induction c with
  | nil => exact h
  | cons p rest ih =>
    have hrest : DateInv rest := fun q hq => h q (List.mem_cons_of_mem _ hq)
    by_cases hp : p.1 = d
    · simp only [appendAt, if_pos hp]
      intro q hq
      rcases List.mem_cons.1 hq with rfl | hq
      · intro x hx
        rcases List.mem_append.1 hx with hx | hx
        · exact h p (List.mem_cons_self _ _) x hx
        · rw [List.mem_singleton.1 hx, he, hp]
      · exact hrest q hq
    · simp only [appendAt, if_neg hp]
      intro q hq
      rcases List.mem_cons.1 hq with rfl | hq
      · exact h q (List.mem_cons_self _ _)
      · exact ih hrest q hq

theorem dateInv_pushEntry (c : Collection) (d : String) (e : Entry)
    (h : DateInv c) (he : dateOf e.timestamp = d) : DateInv (pushEntry c d e) := by
  unfold pushEntry
  split
  · exact dateInv_appendAt c d e h he
  · intro q hq
    rcases List.mem_append.1 hq with hq | hq
    · exact h q hq
    · rw [List.mem_singleton.1 hq]
      intro x hx
      rw [List.mem_singleton.1 hx]
      exact he

/-- C1: a POST /api/entries payload with `calories = 0` and a valid name is
accepted with 201; payloads with `calories = -1`, a non-numeric `calories`
such as the string "abc", a missing `name`, or a `name` trimming to the
empty string are each rejected with 400. -/
theorem post_validation_cases (c : Collection) (now newId nm s : String) (v : JSValue)
    (hnm : jsStrTrim nm ≠ "") (hs : jsStrTrim s = "") :
    (handlePostEntry (some ⟨.str nm, .num 0⟩) now newId c).1.status = 201 ∧
    (handlePostEntry (some ⟨.str nm, .num (-1)⟩) now newId c).1.status = 400 ∧
    (handlePostEntry (some ⟨.str nm, .str "abc"⟩) now newId c).1.status = 400 ∧
    (handlePostEntry (some ⟨.undef, v⟩) now newId c).1.status = 400 ∧
    (handlePostEntry (some ⟨.str s, v⟩) now newId c).1.status = 400 := by
  refine ⟨?_, ?_, ?_, ?_, ?_⟩
  · norm_num [handlePostEntry, nameInvalid, caloriesMissing, caloriesNotNumber,
      caloriesNegative, jsTrim, hnm]
  · norm_num [handlePostEntry, nameInvalid, caloriesMissing, caloriesNotNumber,
      caloriesNegative, hnm]
  · norm_num [handlePostEntry, nameInvalid, caloriesMissing, caloriesNotNumber, hnm]
  · norm_num [handlePostEntry, nameInvalid]
  · norm_num [handlePostEntry, nameInvalid, hs]

/-- Witness for C1 at a concrete payload family. -/
theorem post_validation_cases_witness :
    (handlePostEntry (some ⟨.str "Apple", .num 0⟩) "2024-01-02T10:00:00.000Z" "id-w1" []).1.status = 201 ∧
    (handlePostEntry (some ⟨.str "Apple", .num (-1)⟩) "2024-01-02T10:00:00.000Z" "id-w1" []).1.status = 400 ∧
    (handlePostEntry (some ⟨.str "Apple", .str "abc"⟩) "2024-01-02T10:00:00.000Z" "id-w1" []).1.status = 400 ∧
    (handlePostEntry (some ⟨.undef, .num 5⟩) "2024-01-02T10:00:00.000Z" "id-w1" []).1.status = 400 ∧
    (handlePostEntry (some ⟨.str "   ", .num 5⟩) "2024-01-02T10:00:00.000Z" "id-w1" []).1.status = 400 :=
  post_validation_cases [] "2024-01-02T10:00:00.000Z" "id-w1" "Apple" "   " (.num 5)
    (by decide) (by decide)

/-- C2: clearing a date removes exactly the entries stored under that key —
the subsequent list for the cleared date is empty while every other date key
is unchanged — always persisting and answering 204, even when the date had
no entries. -/
theorem clear_day_spec (c : Collection) (param : Option String) (today d' : String)
    (h : d' ≠ dateOrToday param today) :
    (handleClearDay param today c).1 = ⟨204, .noBody⟩ ∧
    (handleClearDay param today c).2 = some (clearDate c (dateOrToday param today)) ∧
    listForDate (clearDate c (dateOrToday param today)) (dateOrToday param today) = [] ∧
    listForDate (clearDate c (dateOrToday param today)) d' = listForDate c d' :=
  ⟨rfl, rfl, listForDate_clearDate_self c _,
    listForDate_clearDate_other c (dateOrToday param today) d' h⟩

/-- Witness for C2 on a concrete two-date collection, clearing one date. -/
theorem clear_day_spec_witness :
    (handleClearDay (some "2024-01-02") "2024-01-07" democ).1 = ⟨204, .noBody⟩ ∧
    (handleClearDay (some "2024-01-02") "2024-01-07" democ).2 =
      some (clearDate democ (dateOrToday (some "2024-01-02") "2024-01-07")) ∧
    listForDate (clearDate democ (dateOrToday (some "2024-01-02") "2024-01-07"))
      (dateOrToday (some "2024-01-02") "2024-01-07") = [] ∧
    listForDate (clearDate democ (dateOrToday (some "2024-01-02") "2024-01-07"))
      "2024-01-05" = listForDate democ "2024-01-05" :=
  clear_day_spec democ (some "2024-01-02") "2024-01-07" "2024-01-05" (by decide)

/-- C3: `deleteById` scans the entries of every date key in order; at the
first key holding a match it removes the first matching entry, drops the key
entirely when its sequence becomes empty, and the found flag is true exactly
when some entry anywhere in the collection has the id. -/
theorem delete_by_id_spec (entryId : String) (pre suf : Collection) (d : String)
    (epre esuf : List Entry) (e : Entry)
    (hpre : ∀ p ∈ pre, ∀ x ∈ p.2, x.id ≠ entryId)
    (hepre : ∀ x ∈ epre, x.id ≠ entryId)
    (he : e.id = entryId) :
    (deleteById entryId (pre ++ (d, epre ++ e :: esuf) :: suf)).1 = true ∧
    (deleteById entryId (pre ++ (d, epre ++ e :: esuf) :: suf)).2 =
      pre ++ (if epre ++ esuf = [] then suf else (d, epre ++ esuf) :: suf) ∧
    (∀ c : Collection,
      ((deleteById entryId c).1 = true ↔ ∃ p ∈ c, ∃ x ∈ p.2, x.id = entryId)) ∧
    (∀ c : Collection,
      (∀ p ∈ c, ∀ x ∈ p.2, x.id ≠ entryId) → deleteById entryId c = (false, c)) := by
  have hrf : removeFirstById entryId (epre ++ e :: esuf) = some (epre ++ esuf) :=
    removeFirstById_first entryId epre esuf e hepre he
  have hfound := deleteById_found entryId pre suf d (epre ++ e :: esuf) (epre ++ esuf) hpre hrf
  exact ⟨by rw [hfound], by rw [hfound],
    fun c => deleteById_fst_iff entryId c,
    fun c hc => deleteById_no_match entryId c hc⟩

/-- Witness for C3: the match sits under the second date key, behind one
non-matching entry, and the key survives because its sequence stays
non-empty. -/
theorem delete_by_id_spec_witness :
    (deleteById "id-y" ([("2024-01-02", [entryA])] ++ ("2024-01-05", [entryC] ++ ⟨"id-y", "Yam", 50, "2024-01-05T12:00:00.000Z"⟩ :: []) :: [])).1 = true ∧
    (deleteById "id-y" ([("2024-01-02", [entryA])] ++ ("2024-01-05", [entryC] ++ ⟨"id-y", "Yam", 50, "2024-01-05T12:00:00.000Z"⟩ :: []) :: [])).2 =
      [("2024-01-02", [entryA])] ++ (if [entryC] ++ ([] : List Entry) = [] then [] else ("2024-01-05", [entryC] ++ ([] : List Entry)) :: []) ∧
    (∀ c : Collection,
      ((deleteById "id-y" c).1 = true ↔ ∃ p ∈ c, ∃ x ∈ p.2, x.id = "id-y")) ∧
    (∀ c : Collection,
      (∀ p ∈ c, ∀ x ∈ p.2, x.id ≠ "id-y") → deleteById "id-y" c = (false, c)) :=
  delete_by_id_spec "id-y" [("2024-01-02", [entryA])] [] "2024-01-05"
    [entryC] [] ⟨"id-y", "Yam", 50, "2024-01-05T12:00:00.000Z"⟩
    (by decide) (by decide) (by decide)

/-- C4: GET /api/entries with a (non-empty) date parameter answers 200 with
exactly the sequence stored under that key — the empty array when the key is
absent — and without the parameter the date defaults to today. -/
theorem get_entries_spec (c : Collection) (d today : String) (hd : d ≠ "") :
    handleGetEntries (some d) today c = ⟨200, .entries (listForDate c d)⟩ ∧
    handleGetEntries none today c = ⟨200, .entries (listForDate c today)⟩ := by
  constructor
  · simp [handleGetEntries, dateOrToday, hd]
  · rfl

/-- Witness for C4 on the concrete collection. -/
theorem get_entries_spec_witness :
    handleGetEntries (some "2024-01-05") "2024-01-07" democ =
      ⟨200, .entries (listForDate democ "2024-01-05")⟩ ∧
    handleGetEntries none "2024-01-07" democ =
      ⟨200, .entries (listForDate democ "2024-01-07")⟩ :=
  get_entries_spec democ "2024-01-05" "2024-01-07" (by decide)

/-- C5: GET /api/total answers 200 with the sum of the calories of exactly
the entries `listForDate` yields for the requested date, and 0 when that
date has no entries or its key is absent. -/
theorem get_total_spec (c : Collection) (param : Option String) (today : String) :
    handleGetTotal param today c =
      ⟨200, .total (((listForDate c (dateOrToday param today)).map Entry.calories).sum)⟩ ∧
    (listForDate c (dateOrToday param today) = [] →
      handleGetTotal param today c = ⟨200, .total 0⟩) := by
  constructor
  · simp [handleGetTotal, totalForDate, foldl_calories]
  · intro h
    simp [handleGetTotal, totalForDate, h]

/-- Witness for C5: a populated date and an absent date key. -/
theorem get_total_spec_witness :
    handleGetTotal (some "2024-01-02") "2024-01-07" democ =
      ⟨200, .total (((listForDate democ (dateOrToday (some "2024-01-02") "2024-01-07")).map Entry.calories).sum)⟩ ∧
    handleGetTotal (some "2099-12-31") "2024-01-07" democ = ⟨200, .total 0⟩ :=
  ⟨(get_total_spec democ (some "2024-01-02") "2024-01-07").1,
   (get_total_spec democ (some "2099-12-31") "2024-01-07").2 (by decide)⟩

/-- C6: DELETE /api/entries/{id} answers 204 with no body and persists the
mutated collection exactly when an entry with the id exists, and answers 404
with body error "Entry not found" and persists nothing exactly when none
does. -/
theorem delete_route_spec (entryId : String) (c : Collection) :
    ((∃ p ∈ c, ∃ e ∈ p.2, e.id = entryId) →
      handleDeleteEntryById entryId c = (⟨204, .noBody⟩, some (deleteById entryId c).2)) ∧
    ((∀ p ∈ c, ∀ e ∈ p.2, e.id ≠ entryId) →
      handleDeleteEntryById entryId c = (⟨404, .err "Entry not found"⟩, none)) := by
  constructor
  · intro h
    have hf : (deleteById entryId c).1 = true := (deleteById_fst_iff entryId c).2 h
    simp [handleDeleteEntryById, hf]
  · intro h
    have hf : (deleteById entryId c).1 = false := by
      rw [deleteById_no_match entryId c h]
    simp [handleDeleteEntryById, hf]

/-- Witness for C6: a present id and an unknown id on the concrete
collection. -/
theorem delete_route_spec_witness :
    handleDeleteEntryById "id-a" democ = (⟨204, .noBody⟩, some (deleteById "id-a" democ).2) ∧
    handleDeleteEntryById "id-zz" democ = (⟨404, .err "Entry not found"⟩, none) :=
  ⟨(delete_route_spec "id-a" democ).1
      ⟨("2024-01-02", [entryA, entryB]), by decide, entryA, by decide, by decide⟩,
   (delete_route_spec "id-zz" democ).2 (by decide)⟩

/-- C7: `readData` fails open — a missing data file and an unparsable one
both yield the empty collection, and on the missing file the empty
collection is also written back to disk before returning. -/
theorem read_data_fails_open :
    (readData .missing).1 = [] ∧ (readData .corrupt).1 = [] ∧
    (readData .missing).2 = some [] :=
  ⟨rfl, rfl, rfl⟩

/-- C8: the collection invariant — every entry under a date key has a
timestamp whose date component equals the key — is preserved by every
operation: any persisted result of a POST, of `deleteById` and of
`clearDate` satisfies it again; and a valid creation stamps the new entry
with the current instant and stores it under the current date's key. -/
theorem collection_invariant (c : Collection) (hInv : DateInv c)
    (body : Payload) (now newId entryId dq nm : String)
    (h1 : nameInvalid body.name = false) (h2 : caloriesMissing body.calories = false)
    (h3 : caloriesNotNumber body.calories = false)
    (h4 : caloriesNegative body.calories = false)
    (h5 : jsTrim body.name = some nm) :
    (∀ parsed r c', handlePostEntry parsed now newId c = (r, some c') → DateInv c') ∧
    DateInv (deleteById entryId c).2 ∧
    DateInv (clearDate c dq) ∧
    handlePostEntry (some body) now newId c =
      (⟨201, .entry ⟨newId, nm, numVal body.calories, now⟩⟩,
       some (pushEntry c (getToday now) ⟨newId, nm, numVal body.calories, now⟩)) := by
  refine ⟨?_, dateInv_deleteById c entryId hInv, dateInv_clearDate c dq hInv, ?_⟩
  · intro parsed r c' heq
    match parsed with
    | none => simp [handlePostEntry] at heq
    | some b =>
      by_cases hb1 : nameInvalid b.name
      · simp [handlePostEntry, hb1] at heq
      · by_cases hb2 : caloriesMissing b.calories
        · simp [handlePostEntry, hb1, hb2] at heq
        · by_cases hb3 : caloriesNotNumber b.calories
          · simp [handlePostEntry, hb1, hb2, hb3] at heq
          · by_cases hb4 : caloriesNegative b.calories
            · simp [handlePostEntry, hb1, hb2, hb3, hb4] at heq
            · cases hb5 : jsTrim b.name with
              | none => simp [handlePostEntry, hb1, hb2, hb3, hb4, hb5] at heq
              | some bnm =>
                simp [handlePostEntry, hb1, hb2, hb3, hb4, hb5] at heq
                obtain ⟨-, hc'⟩ := heq
                subst hc'
                exact dateInv_pushEntry c (getToday now) _ hInv rfl
  · simp [handlePostEntry, h1, h2, h3, h4, h5]

/-- Witness for C8 on the concrete collection, with a valid creation. -/
theorem collection_invariant_witness :
    DateInv (deleteById "id-a" democ).2 ∧
    DateInv (clearDate democ "2024-01-02") ∧
    handlePostEntry (some ⟨.str "Plum", .num 30⟩) "2024-01-07T09:00:00.000Z" "id-p" democ =
      (⟨201, .entry ⟨"id-p", "Plum", numVal (.num 30), "2024-01-07T09:00:00.000Z"⟩⟩,
       some (pushEntry democ (getToday "2024-01-07T09:00:00.000Z")
         ⟨"id-p", "Plum", numVal (.num 30), "2024-01-07T09:00:00.000Z"⟩)) := by
  have h := collection_invariant democ (by unfold DateInv; decide)
    ⟨.str "Plum", .num 30⟩ "2024-01-07T09:00:00.000Z" "id-p" "id-a" "2024-01-02" "Plum"
    (by decide) (by decide) (by decide) (by decide) (by decide)
  exact ⟨h.2.1, h.2.2.1, h.2.2.2⟩

/-- C9: frame property of creation — a successful POST answers 201 and the
persisted collection appends exactly one new entry, stamped with the current
instant, at the end of today's sequence, while the sequence under every
other date key is unchanged. -/
theorem post_frame (c : Collection) (body : Payload) (now newId : String)
    (r : Response) (c' : Collection)
    (h : handlePostEntry (some body) now newId c = (r, some c')) :
    r.status = 201 ∧
    (∃ e : Entry, e.timestamp = now ∧
      listForDate c' (getToday now) = listForDate c (getToday now) ++ [e]) ∧
    (∀ d, d ≠ getToday now → listForDate c' d = listForDate c d) := by
  by_cases h1 : nameInvalid body.name
  · simp [handlePostEntry, h1] at h
  · by_cases h2 : caloriesMissing body.calories
    · simp [handlePostEntry, h1, h2] at h
    · by_cases h3 : caloriesNotNumber body.calories
      · simp [handlePostEntry, h1, h2, h3] at h
      · by_cases h4 : caloriesNegative body.calories
        · simp [handlePostEntry, h1, h2, h3, h4] at h
        · cases h5 : jsTrim body.name with
          | none => simp [handlePostEntry, h1, h2, h3, h4, h5] at h
          | some nm =>
            simp [handlePostEntry, h1, h2, h3, h4, h5] at h
            obtain ⟨hr, hc'⟩ := h
            subst hr
            subst hc'
            exact ⟨rfl,
              ⟨⟨newId, nm, numVal body.calories, now⟩, rfl,
                listForDate_pushEntry_self c (getToday now) _⟩,
              fun d hd => listForDate_pushEntry_other c (getToday now) d _ hd⟩

/-- Witness for C9: a concrete successful creation on the empty
collection. -/
theorem post_frame_witness :
    (⟨201, .entry ⟨"id-x", "Apple", 95, "2024-01-03T08:00:00.000Z"⟩⟩ : Response).status = 201 ∧
    (∃ e : Entry, e.timestamp = "2024-01-03T08:00:00.000Z" ∧
      listForDate [("2024-01-03", [⟨"id-x", "Apple", 95, "2024-01-03T08:00:00.000Z"⟩])]
          (getToday "2024-01-03T08:00:00.000Z") =
        listForDate [] (getToday "2024-01-03T08:00:00.000Z") ++ [e]) ∧
    (∀ d, d ≠ getToday "2024-01-03T08:00:00.000Z" →
      listForDate [("2024-01-03", [⟨"id-x", "Apple", 95, "2024-01-03T08:00:00.000Z"⟩])] d =
        listForDate [] d) :=
  post_frame [] ⟨.str "Apple", .num 95⟩ "2024-01-03T08:00:00.000Z" "id-x"
    ⟨201, .entry ⟨"id-x", "Apple", 95, "2024-01-03T08:00:00.000Z"⟩⟩
    [("2024-01-03", [⟨"id-x", "Apple", 95, "2024-01-03T08:00:00.000Z"⟩])] (by decide)

/-- C10: atomicity on error — a POST answered with 400 (validation failure
or malformed JSON body) writes nothing, and a DELETE by id answered with 404
writes nothing: the persisted collection is untouched. -/
theorem error_atomicity (parsed : Option Payload) (now newId entryId : String)
    (c : Collection) :
    ((handlePostEntry parsed now newId c).1.status = 400 →
      (handlePostEntry parsed now newId c).2 = none) ∧
    ((handleDeleteEntryById entryId c).1.status = 404 →
      (handleDeleteEntryById entryId c).2 = none) := by
  constructor
  · intro h
    match parsed with
    | none => rfl
    | some body =>
      by_cases h1 : nameInvalid body.name
      · simp [handlePostEntry, h1]
      · by_cases h2 : caloriesMissing body.calories
        · simp [handlePostEntry, h1, h2]
        · by_cases h3 : caloriesNotNumber body.calories
          · simp [handlePostEntry, h1, h2, h3]
          · by_cases h4 : caloriesNegative body.calories
            · simp [handlePostEntry, h1, h2, h3, h4]
            · cases h5 : jsTrim body.name with
              | none => simp [handlePostEntry, h1, h2, h3, h4, h5]
              | some nm =>
                exfalso
                simp [handlePostEntry, h1, h2, h3, h4, h5] at h
  · intro h
    by_cases hf : (deleteById entryId c).1
    · exfalso
      simp [handleDeleteEntryById, hf] at h
    · simp [handleDeleteEntryById, hf]

/-- Witness for C10: a rejected POST (missing name) and a DELETE of an
unknown id, both leaving the store unwritten. -/
theorem error_atomicity_witness :
    (handlePostEntry (some ⟨.undef, .num 1⟩) "2024-01-02T10:00:00.000Z" "id-w" democ).2 = none ∧
    (handleDeleteEntryById "id-zzz" democ).2 = none :=
  ⟨(error_atomicity (some ⟨.undef, .num 1⟩) "2024-01-02T10:00:00.000Z" "id-w" "id-zzz" democ).1
      (by decide),
   (error_atomicity (some ⟨.undef, .num 1⟩) "2024-01-02T10:00:00.000Z" "id-w" "id-zzz" democ).2
      (by decide)⟩
